import Mathlib

/-!
# Verification of the vote aggregation service (`app.py`)

A shallow embedding of the core of the service: the submission validator
`validate_payload` and the aggregator `aggregate_votes`, modelled over decoded
JSON values.  Machine floats are modelled as exact rationals (`ℚ`); the
server clock (`datetime.now`) is an explicit `now` parameter.

Domain of the model: the aggregator is defined on collections of decoded JSON
*objects* (association lists), with string-valued `evaluatorName`,
`presenterId` and timestamp fields.  On other shapes the running code raises
(`AttributeError` / `TypeError` from mixed-type comparison or unhashable
keys) and never returns a result, so such inputs are outside the modelled
domain; where a branch of a definition covers such a value it is marked with
a comment.  All other fields (`score`, `comment`, `presenter`, unknown extra
fields) are arbitrary JSON values, exactly as in the code.
-/

attribute [local semireducible] Rat.add Rat.mul Rat.sub Rat.inv

/-- The Python whitespace characters stripped by `str.strip()` (and ignored
around numerals by `float`). -/
def isPySpace (c : Char) : Bool :=
  c = ' ' || c = '\t' || c = '\n' || c = '\r' || c = '\x0b' || c = '\x0c'

/-- Python's `s.strip()`: the string with leading and trailing whitespace
removed. -/
def pyStrip (s : String) : String :=
  ⟨((s.toList.dropWhile isPySpace).reverse.dropWhile isPySpace).reverse⟩

/-- Python's `<` on strings: lexicographic comparison by Unicode code point
(the comparison behind `ts > prev[0]` and the sort key). -/
def strLt (a b : String) : Bool :=
  decide (a.toList < b.toList)

/-- A decoded JSON value (the result of Python's `json.loads`).  Python
floats are represented exactly as rationals; JSON objects are ordered
association lists (Python dicts preserve insertion order, and objects decoded
from JSON have distinct keys). -/
inductive Json where
  | null
  | bool (b : Bool)
  | int (n : Int)
  | num (q : ℚ)
  | str (s : String)
  | arr (elems : List Json)
  | obj (fields : List (String × Json))

/-- A decoded JSON object: what a stored vote record is. -/
abbrev Obj := List (String × Json)

/-- Python truthiness (`bool(v)`) on JSON-representable values. -/
def truthy : Json → Bool
  | .null => false
  | .bool b => b
  | .int n => n != 0
  | .num q => q != 0
  | .str s => s ≠ ""
  | .arr es => !es.isEmpty
  | .obj fs => !fs.isEmpty

/-- Python's `d.get(k)`: the value stored under `k`, or `None` when absent. -/
def getD (fields : Obj) (k : String) : Json :=
  match fields.lookup k with
  | some v => v
  | none => .null

/-- Python's short-circuiting `a or b`: `a` when truthy, else `b`. -/
def pyOr (a b : Json) : Json :=
  if truthy a then a else b

/-- Python's `isinstance(v, int)`.  `bool` is a subclass of `int` in Python,
so booleans satisfy the check; floats do not. -/
def isPyInt : Json → Bool
  | .int _ => true
  | .bool _ => true
  | _ => false

/-- The integer value of a Python `int` (with `True = 1`, `False = 0`). -/
def pyIntVal : Json → Int
  | .int n => n
  | .bool b => if b then 1 else 0
  | _ => 0

/-- The validation loop over `payload["results"]` in `validate_payload`:
returns the first failure, `(True, "")` when every element passes. -/
def validateResults : List Json → Bool × String
  | [] => (true, "")
  | r :: rest =>
    match r with
    | .obj rf =>
      match List.lookup "presenterId" rf with
      | some (.str pid) =>
        if pyStrip pid = "" then (false, "presenterId is required")
        else
          match List.lookup "score" rf with
          | none => (false, "score is required")
          | some score =>
            if !(isPyInt score) || pyIntVal score < 0 || pyIntVal score > 5 then
              (false, "score must be an integer 0..5")
            else
              match List.lookup "comment" rf with
              | some .null => validateResults rest
              | some (.str _) => validateResults rest
              | some _ => (false, "comment must be a string")
              | none => validateResults rest
      | some _ => (false, "presenterId is required")
      | none => (false, "presenterId is required")
    | _ => (false, "each result must be an object")

/-- `validate_payload` from `app.py`: checks, short-circuiting on the first
violation, that the payload is an object, that `evaluatorName` is a string
with non-whitespace content, that `results` is a non-empty list, and the
per-element rules of `validateResults`. -/
def validate_payload (payload : Json) : Bool × String :=
  match payload with
  | .obj p =>
    match List.lookup "evaluatorName" p with
    | some (.str ev) =>
      if pyStrip ev = "" then (false, "Evaluator name is required")
      else
        match List.lookup "results" p with
        | some (.arr results) =>
          if results.isEmpty then (false, "results must be a non-empty list")
          else validateResults results
        | some _ => (false, "results must be a non-empty list")
        | none => (false, "results must be a non-empty list")
    | some _ => (false, "Evaluator name is required")
    | none => (false, "Evaluator name is required")
  | _ => (false, "payload must be a JSON object")

/-- The numeric value of a list of decimal digit characters. -/
def digitsVal (l : List Char) : ℕ :=
  l.foldl (fun a c => a * 10 + (c.toNat - 48)) 0

/-- Split a character list at its first `.`, when any. -/
def splitAtDot : List Char → Option (List Char × List Char)
  | [] => none
  | c :: rest =>
    if c = '.' then some ([], rest)
    else
      match splitAtDot rest with
      | none => none
      | some (a, b) => some (c :: a, b)

/-- Python's `float(s)` on a string, for the plain decimal forms
(`"12"`, `"-3.5"`, `".5"`, `"+2."`, with surrounding whitespace): `none`
when the string does not parse.  Exponent, `inf`/`nan` and underscore forms
also parse in Python but do not occur in stored records and are outside the
modelled domain. -/
def pyFloatOfString (s : String) : Option ℚ :=
  let t := (pyStrip s).toList
  let sign : ℚ := if t.take 1 = ['-'] then -1 else 1
  let body := if t.take 1 = ['-'] || t.take 1 = ['+'] then t.drop 1 else t
  match splitAtDot body with
  | none =>
    if !body.isEmpty && body.all Char.isDigit then
      some (sign * (digitsVal body : ℚ))
    else none
  | some (a, b) =>
    if b.contains '.' then none
    else if (!a.isEmpty || !b.isEmpty) && a.all Char.isDigit && b.all Char.isDigit then
      some (sign * ((digitsVal a : ℚ) + (digitsVal b : ℚ) / ((10 ^ b.length : ℕ) : ℚ)))
    else none

/-- The score coercion of the accumulation loop: `if score is None: continue`
followed by `s = float(score)` with a `continue` on failure.  `float` on
decoded JSON values: ints convert exactly, floats are already floats,
booleans give `1.0`/`0.0` (`bool` is a subclass of `int`), strings parse as
decimals, and lists/objects raise `TypeError` (caught, entry skipped). -/
def scoreFloat : Json → Option ℚ
  | .null => none
  | .bool b => some (if b then 1 else 0)
  | .int n => some (n : ℚ)
  | .num q => some q
  | .str s => pyFloatOfString s
  | .arr _ => none
  | .obj _ => none

/-- The floor of an exact rational, by floor division of the normalized
numerator by the denominator. -/
def ratFloor (q : ℚ) : ℤ :=
  q.num.fdiv q.den

/-- Round to the nearest integer, ties to even (the rounding mode of
Python 3's `round`). -/
def roundHalfEven (q : ℚ) : ℤ :=
  if q - (ratFloor q : ℚ) < 1/2 then ratFloor q
  else if 1/2 < q - (ratFloor q : ℚ) then ratFloor q + 1
  else if ratFloor q % 2 = 0 then ratFloor q else ratFloor q + 1

/-- `round(x, 3)`: round to 3 decimal places.  The code rounds an IEEE
double; in this exact-rational model the same rounding is applied to the
exact quotient. -/
def round3 (q : ℚ) : ℚ :=
  (roundHalfEven (q * 1000) : ℚ) / 1000

/-- Python dict assignment `d[k] = v`: replaces the value in place when the
key is present (the key keeps its position), appends otherwise.  Python
dicts preserve insertion order. -/
def dictSet {κ α : Type} [DecidableEq κ] : List (κ × α) → κ → α → List (κ × α)
  | [], k, v => [(k, v)]
  | (k0, v0) :: rest, k, v =>
    if k0 = k then (k0, v) :: rest else (k0, v0) :: dictSet rest k v

/-- A survivor entry: the tuple `(ts, score, comment, pname)` stored as the
value of the `latest` map. -/
structure SEntry where
  ts : String
  score : Json
  comment : Json
  pname : Json

/-- The key of the latest-wins map: `(evaluator_name, presenterId)`. -/
abbrev VKey := String × String

/-- The `latest` dict of `aggregate_votes`, in insertion order. -/
abbrev Latest := List (VKey × SEntry)

/-- `ts = rec.get("serverReceivedAt") or rec.get("timestamp") or ""`: the
first truthy of the two fields, else `""`.  Timestamps are strings in every
stored record (`serverReceivedAt` is stamped by the server as an ISO string);
a truthy non-string here would raise `TypeError` in the later `ts > prev[0]`
comparison, so non-string timestamps are outside the modelled domain
(mapped to `""`). -/
def effTs (rec : Obj) : String :=
  match pyOr (getD rec "serverReceivedAt") (pyOr (getD rec "timestamp") (.str "")) with
  | .str s => s
  | _ => ""

/-- `results = rec.get("results") or []` followed by iteration: a JSON array
yields its elements and every falsy value yields `[]` (via `or []`).  A
truthy non-array (whose iteration raises or yields non-objects in Python) is
outside the modelled domain and yields `[]`. -/
def recResults (rec : Obj) : List Json :=
  match getD rec "results" with
  | .arr es => es
  | _ => []

/-- One iteration of the inner entry loop of `aggregate_votes`: entries with
a falsy `presenterId` are skipped (`if not pid: continue`); otherwise the
survivor for `(evaluator_name, pid)` is replaced exactly when there is no
survivor yet or the record's timestamp string is strictly greater
(`ts > prev[0]`).  A truthy non-string `presenterId` would make the final
Python sort raise on mixed key types, and a non-object entry would raise
`AttributeError`; both are outside the modelled domain (skipped). -/
def procEntry (evaluator_name ts : String) (latest : Latest) (entry : Json) : Latest :=
  match entry with
  | .obj e =>
    match getD e "presenterId" with
    | .str pid =>
      if pid = "" then latest
      else
        let pname := getD e "presenter"
        let score := getD e "score"
        let comment := pyOr (getD e "comment") (.str "")
        match List.lookup (evaluator_name, pid) latest with
        | none => dictSet latest (evaluator_name, pid) ⟨ts, score, comment, pname⟩
        | some prev =>
          if strLt prev.ts ts then dictSet latest (evaluator_name, pid) ⟨ts, score, comment, pname⟩
          else latest
    | _ => latest
  | _ => latest

/-- One iteration of the record loop of `aggregate_votes`: a record with a
falsy `evaluatorName` is skipped whole; otherwise the evaluator joins the
evaluator set (modelled as a deduplicating list — only its size reaches the
output) and every result entry is processed in order.  A truthy non-string
`evaluatorName` is outside the modelled domain: stored names are strings by
construction of the write path. -/
def procRecord (st : Latest × List String) (rec : Obj) : Latest × List String :=
  match getD rec "evaluatorName" with
  | .str evaluator_name =>
    if evaluator_name = "" then st
    else
      let evs := if st.2.contains evaluator_name then st.2 else st.2 ++ [evaluator_name]
      ((recResults rec).foldl (procEntry evaluator_name (effTs rec)) st.1, evs)
  | _ => st

/-- One element of a presenter's `details` list. -/
structure Detail where
  evaluatorName : String
  score : ℚ
  comment : Json
  timestamp : String

/-- A presenter summary, as built by the accumulation loop.  `avgScore` is
only written by the final loop; before that the field holds `0`. -/
structure Summary where
  presenterId : String
  presenter : Json
  totalScore : ℚ
  voteCount : Nat
  details : List Detail
  avgScore : ℚ

/-- One iteration of the per-presenter accumulation loop over the survivor
map: entries whose score is `None` or fails `float` are skipped; otherwise
the presenter's summary is created on first sight (`setdefault`), its display
name is overwritten by a truthy `pname`, and the score, the count and a
detail row are accumulated. -/
def addSurvivor (all_presenters : List (String × Summary)) (kv : VKey × SEntry) :
    List (String × Summary) :=
  match scoreFloat kv.2.score with
  | none => all_presenters
  | some s =>
    let pid := kv.1.2
    let p0 : Summary :=
      match List.lookup pid all_presenters with
      | some p => p
      | none => ⟨pid, kv.2.pname, 0, 0, [], 0⟩
    let p1 := if truthy kv.2.pname then { p0 with presenter := kv.2.pname } else p0
    let p2 := { p1 with
      totalScore := p1.totalScore + s,
      voteCount := p1.voteCount + 1,
      details := p1.details ++ [⟨kv.1.1, s, kv.2.comment, kv.2.ts⟩] }
    dictSet all_presenters pid p2

/-- The final loop: set `avgScore = round(totalScore/voteCount, 3)` (`0.0`
when the count is `0`) on every summary, in map insertion order. -/
def finalizeSummaries (all_presenters : List (String × Summary)) : List Summary :=
  all_presenters.map fun kv =>
    let avg : ℚ := if kv.2.voteCount > 0 then kv.2.totalScore / (kv.2.voteCount : ℚ) else 0
    { kv.2 with avgScore := round3 avg }

/-- Strict comparison of the sort keys
`(-x.avgScore, -x.voteCount, x.presenterId)`: Python compares the key tuples
lexicographically. -/
def sortKeyLt (a b : Summary) : Bool :=
  if a.avgScore = b.avgScore then
    if a.voteCount = b.voteCount then strLt a.presenterId b.presenterId
    else decide (b.voteCount < a.voteCount)
  else decide (b.avgScore < a.avgScore)

/-- The non-strict comparison handed to the stable sort: `a` may stay before
`b` exactly when the key of `b` is not strictly smaller. -/
def sortKeyLe (a b : Summary) : Bool :=
  !(sortKeyLt b a)

/-- The aggregation result `{ok, lastUpdated, all_presenters, totalEvaluators}`. -/
structure AggResult where
  ok : Bool
  lastUpdated : String
  all_presenters : List Summary
  totalEvaluators : Nat

/-- `aggregate_votes` from `app.py`, over decoded record objects.  `now`
stands for the ambient clock reading `datetime.now(timezone.utc).isoformat()`
used for `lastUpdated`.  Python's `list.sort` is a stable sort, modelled by
`List.mergeSort`. -/
def aggregate_votes (records : List Obj) (now : String) : AggResult :=
  let st := records.foldl procRecord ([], [])
  let all_presenters := st.1.foldl addSurvivor []
  let result_list := (finalizeSummaries all_presenters).mergeSort sortKeyLe
  ⟨true, now, result_list, st.2.length⟩

/-- A result entry `{presenterId, presenter, score, comment}` as a decoded
JSON object. -/
def mkEntry (pid : String) (pname score comment : Json) : Json :=
  .obj [("presenterId", .str pid), ("presenter", pname), ("score", score), ("comment", comment)]

/-- A stored vote record `{evaluatorName, serverReceivedAt, results}`. -/
def mkRecord (ev ts : String) (results : List Json) : Obj :=
  [("evaluatorName", .str ev), ("serverReceivedAt", .str ts), ("results", .arr results)]

/-- The survivor map (`latest`) built by the first loop of
`aggregate_votes` on a record collection. -/
def latestOf (records : List Obj) : Latest :=
  (records.foldl procRecord ([], [])).1

/-- The evaluators contributing to `pid`: survivor-map entries keyed by
`pid` whose score parses as a float, in map order. -/
def contribEvs (l : Latest) (pid : String) : List String :=
  (l.filter (fun kv => kv.1.2 == pid && (scoreFloat kv.2.score).isSome)).map (fun kv => kv.1.1)

/-- The loop invariant of the accumulation fold: after the survivor entries
`done` have been processed into `acc`, the presenter keys are distinct and
every summary's identity, count, total and detail rows agree with the
parsable contributions seen so far; presenters without parsable
contributions are absent. -/
def accInv (done : Latest) (acc : List (String × Summary)) : Prop :=
  (acc.map Prod.fst).Nodup ∧
  (∀ p ∈ acc, p.2.presenterId = p.1 ∧
      p.2.voteCount = p.2.details.length ∧
      p.2.totalScore = (p.2.details.map (fun d => d.score)).sum ∧
      1 ≤ p.2.voteCount ∧
      p.2.details.map (fun d => d.evaluatorName) = contribEvs done p.1) ∧
  (∀ pid : String, pid ∉ acc.map Prod.fst → contribEvs done pid = [])

/-- The ranking order of the spec: strictly better average score first, then
strictly more votes, then strictly smaller `presenterId` (lexicographic). -/
def rankedBefore (a b : Summary) : Prop :=
  b.avgScore < a.avgScore ∨
    (a.avgScore = b.avgScore ∧ (b.voteCount < a.voteCount ∨
      (a.voteCount = b.voteCount ∧ a.presenterId < b.presenterId)))

/-- A JSON value that is either a string or falsy: the shapes a timestamp
field may take without the running code raising a `TypeError`. -/
def strOrFalsy : Json → Bool
  | .str _ => true
  | v => !(truthy v)

/-- The effective timestamp as the claim reads: the `serverReceivedAt`
string whenever the key is present, else the `timestamp` string whenever
present, else `""`. -/
def effTsClaimed (rec : Obj) : String :=
  match List.lookup "serverReceivedAt" rec with
  | some (.str s) => s
  | _ =>
    match List.lookup "timestamp" rec with
    | some (.str s) => s
    | _ => ""

/-- The effective timestamp as the code computes it: the `serverReceivedAt`
string when present and non-empty, else the `timestamp` string when present
and non-empty, else `""`. -/
def effTsAmended (rec : Obj) : String :=
  match List.lookup "serverReceivedAt" rec with
  | some (.str s) =>
    if s = "" then
      match List.lookup "timestamp" rec with
      | some (.str t) => if t = "" then "" else t
      | _ => ""
    else s
  | _ =>
    match List.lookup "timestamp" rec with
    | some (.str t) => if t = "" then "" else t
    | _ => ""

unseal List.merge List.mergeSort

/-- Claim C3: `validate_payload` rejects, with a reason, a non-object
payload, a missing or blank-after-trim `evaluatorName`, an empty `results`
list, a `score` of `5.5`, `"5"`, `-1` or `6`, and a non-null non-string
`comment`; and it accepts the payload
`{"evaluatorName":"alice","results":[{"presenterId":"p1","score":5}]}`. -/
theorem C3_validator_cases :
    validate_payload (Json.arr [Json.str "x"]) = (false, "payload must be a JSON object") ∧
    validate_payload (Json.obj [("results",
        Json.arr [Json.obj [("presenterId", Json.str "p1"), ("score", Json.int 5)]])])
      = (false, "Evaluator name is required") ∧
    validate_payload (Json.obj [("evaluatorName", Json.str "   "), ("results",
        Json.arr [Json.obj [("presenterId", Json.str "p1"), ("score", Json.int 5)]])])
      = (false, "Evaluator name is required") ∧
    validate_payload (Json.obj [("evaluatorName", Json.str "alice"),
        ("results", Json.arr [])]) = (false, "results must be a non-empty list") ∧
    validate_payload (Json.obj [("evaluatorName", Json.str "alice"), ("results",
        Json.arr [Json.obj [("presenterId", Json.str "p1"), ("score", Json.num (11/2))]])])
      = (false, "score must be an integer 0..5") ∧
    validate_payload (Json.obj [("evaluatorName", Json.str "alice"), ("results",
        Json.arr [Json.obj [("presenterId", Json.str "p1"), ("score", Json.str "5")]])])
      = (false, "score must be an integer 0..5") ∧
    validate_payload (Json.obj [("evaluatorName", Json.str "alice"), ("results",
        Json.arr [Json.obj [("presenterId", Json.str "p1"), ("score", Json.int (-1))]])])
      = (false, "score must be an integer 0..5") ∧
    validate_payload (Json.obj [("evaluatorName", Json.str "alice"), ("results",
        Json.arr [Json.obj [("presenterId", Json.str "p1"), ("score", Json.int 6)]])])
      = (false, "score must be an integer 0..5") ∧
    validate_payload (Json.obj [("evaluatorName", Json.str "alice"), ("results",
        Json.arr [Json.obj [("presenterId", Json.str "p1"), ("score", Json.int 5),
          ("comment", Json.int 7)]])]) = (false, "comment must be a string") ∧
    validate_payload (Json.obj [("evaluatorName", Json.str "alice"), ("results",
        Json.arr [Json.obj [("presenterId", Json.str "p1"), ("score", Json.int 5)]])])
      = (true, "") := by
  decide

/-- Claim C9: the validator accepts a payload whose `score` is the JSON
boolean `true` or `false` (Python's `bool` is a subclass of `int`, and both
values lie in `[0, 5]`), and `aggregate_votes` then counts such a score as
`1.0` respectively `0.0` in the presenter's totals. -/
theorem C9_boolean_scores :
    validate_payload (Json.obj [("evaluatorName", Json.str "alice"), ("results",
        Json.arr [Json.obj [("presenterId", Json.str "p1"), ("score", Json.bool true)]])])
      = (true, "") ∧
    validate_payload (Json.obj [("evaluatorName", Json.str "alice"), ("results",
        Json.arr [Json.obj [("presenterId", Json.str "p1"), ("score", Json.bool false)]])])
      = (true, "") ∧
    ((aggregate_votes [mkRecord "alice" "t" [mkEntry "p1" .null (.bool true) .null]]
        "now").all_presenters.map fun s => (s.presenterId, s.totalScore, s.voteCount))
      = [("p1", 1, 1)] ∧
    ((aggregate_votes [mkRecord "alice" "t" [mkEntry "p1" .null (.bool false) .null]]
        "now").all_presenters.map fun s => (s.presenterId, s.totalScore, s.voteCount))
      = [("p1", 0, 1)] := by
  decide

/-- Claim C8: the presenter output of `aggregate_votes` is deterministic:
on the same record collection, two invocations (with possibly different
clock readings) return the same `all_presenters` list — same ordering, same
field values — and the same `ok` and `totalEvaluators`, even though
`lastUpdated` may differ. -/
theorem C8_deterministic (records : List Obj) (now1 now2 : String) :
    (aggregate_votes records now1).all_presenters
        = (aggregate_votes records now2).all_presenters ∧
    (aggregate_votes records now1).ok = (aggregate_votes records now2).ok ∧
    (aggregate_votes records now1).totalEvaluators
        = (aggregate_votes records now2).totalEvaluators :=
  ⟨rfl, rfl, rfl⟩

/-- Claim C5, counterexample: two submissions from evaluator `"e"` for
presenter `"p"` with the identical timestamp string `"T"`, scores `1`
(processed first) and `2` (processed last).  The code keeps the survivor on
an equal timestamp (`ts > prev[0]` is strict), so the FIRST-processed entry
contributes — total `1`, not `2` — refuting the claim that the last
processed entry survives. -/
theorem C5_tie_keeps_first_cex :
    ((aggregate_votes [mkRecord "e" "T" [mkEntry "p" .null (.int 1) .null],
          mkRecord "e" "T" [mkEntry "p" .null (.int 2) .null]] "now").all_presenters.map
        fun s => (s.totalScore, s.voteCount, s.details.map fun d => (d.evaluatorName, d.score)))
      = [(1, 1, [("e", 1)])] ∧ (1 : ℚ) ≠ 2 := by
  decide

/-- Claim C6, counterexample: a presenter that appears in the survivor map
only through an entry with an unparsable score (`"abc"`) is dropped from
`all_presenters` entirely, not retained with `voteCount` 0 and `avgScore`
0.0 as the claim states. -/
theorem C6_unparsable_dropped_cex :
    ((latestOf [mkRecord "e" "t" [mkEntry "p" .null (.str "abc") .null]]).map
        fun kv => kv.1.2) = ["p"] ∧
    ((aggregate_votes [mkRecord "e" "t" [mkEntry "p" .null (.str "abc") .null]]
        "now").all_presenters.map fun s => s.presenterId) = [] := by
  decide

/-- Claim C7, counterexample: a record whose `serverReceivedAt` key is
present but holds the empty string.  The claim says a present
`serverReceivedAt` is used (here `""`), but the code's `or` chain skips the
falsy empty string and uses the client `timestamp` `"T"` — observable in the
detail row's timestamp. -/
theorem C7_present_empty_cex :
    effTsClaimed [("evaluatorName", Json.str "e"), ("serverReceivedAt", Json.str ""),
        ("timestamp", Json.str "T"),
        ("results", Json.arr [mkEntry "p" Json.null (Json.int 1) Json.null])] = "" ∧
    effTs [("evaluatorName", Json.str "e"), ("serverReceivedAt", Json.str ""),
        ("timestamp", Json.str "T"),
        ("results", Json.arr [mkEntry "p" Json.null (Json.int 1) Json.null])] = "T" ∧
    ((aggregate_votes [[("evaluatorName", Json.str "e"), ("serverReceivedAt", Json.str ""),
        ("timestamp", Json.str "T"),
        ("results", Json.arr [mkEntry "p" Json.null (Json.int 1) Json.null])]]
        "now").all_presenters.map fun s => s.details.map (fun d => d.timestamp)) = [["T"]] ∧
    ("" : String) ≠ "T" := by
  decide

/-- Claim C7 (amended): for a record whose `serverReceivedAt` and
`timestamp` fields are strings or falsy, the effective timestamp used for
conflict resolution is the `serverReceivedAt` string when present and
non-empty, otherwise the `timestamp` string when present and non-empty,
otherwise the empty string. -/
theorem C7_effTs_amended (rec : Obj)
    (hs : strOrFalsy (getD rec "serverReceivedAt") = true)
    (ht : strOrFalsy (getD rec "timestamp") = true) :
    effTs rec = effTsAmended rec := by
  unfold effTs effTsAmended getD pyOr strOrFalsy at *
  generalize e1 : List.lookup "serverReceivedAt" rec = v1 at *
  generalize e2 : List.lookup "timestamp" rec = v2 at *
  clear e1 e2
  rcases v1 with _ | v1
  · rcases v2 with _ | v2
    · simp [truthy]
    · cases v2 with
      | str t => by_cases h : t = "" <;> simp_all [truthy]
      | null => simp_all [truthy]
      | bool b => simp_all [truthy]
      | int n => simp_all [truthy]
      | num q => simp_all [truthy]
      | arr es => simp_all [truthy]
      | obj fs => simp_all [truthy]
  · cases v1 with
    | str s =>
      by_cases h : s = ""
      · subst h
        rcases v2 with _ | v2
        · simp [truthy]
        · cases v2 with
          | str t => by_cases h2 : t = "" <;> simp_all [truthy]
          | null => simp_all [truthy]
          | bool b => simp_all [truthy]
          | int n => simp_all [truthy]
          | num q => simp_all [truthy]
          | arr es => simp_all [truthy]
          | obj fs => simp_all [truthy]
      · simp_all [truthy]
    | null =>
      rcases v2 with _ | v2
      · simp [truthy]
      · cases v2 with
        | str t => by_cases h2 : t = "" <;> simp_all [truthy]
        | null => simp_all [truthy]
        | bool b => simp_all [truthy]
        | int n => simp_all [truthy]
        | num q => simp_all [truthy]
        | arr es => simp_all [truthy]
        | obj fs => simp_all [truthy]
    | bool b =>
      simp only [Bool.not_eq_true'] at hs
      rcases v2 with _ | v2
      · simp_all [truthy]
      · cases v2 with
        | str t => by_cases h2 : t = "" <;> simp_all [truthy]
        | null => simp_all [truthy]
        | bool c => simp_all [truthy]
        | int n => simp_all [truthy]
        | num q => simp_all [truthy]
        | arr es => simp_all [truthy]
        | obj fs => simp_all [truthy]
    | int n =>
      rcases v2 with _ | v2
      · simp_all [truthy]
      · cases v2 with
        | str t => by_cases h2 : t = "" <;> simp_all [truthy]
        | null => simp_all [truthy]
        | bool c => simp_all [truthy]
        | int m => simp_all [truthy]
        | num q => simp_all [truthy]
        | arr es => simp_all [truthy]
        | obj fs => simp_all [truthy]
    | num q =>
      rcases v2 with _ | v2
      · simp_all [truthy]
      · cases v2 with
        | str t => by_cases h2 : t = "" <;> simp_all [truthy]
        | null => simp_all [truthy]
        | bool c => simp_all [truthy]
        | int m => simp_all [truthy]
        | num r => simp_all [truthy]
        | arr es => simp_all [truthy]
        | obj fs => simp_all [truthy]
    | arr es =>
      rcases v2 with _ | v2
      · simp_all [truthy]
      · cases v2 with
        | str t => by_cases h2 : t = "" <;> simp_all [truthy]
        | null => simp_all [truthy]
        | bool c => simp_all [truthy]
        | int m => simp_all [truthy]
        | num r => simp_all [truthy]
        | arr fs => simp_all [truthy]
        | obj fs => simp_all [truthy]
    | obj fs =>
      rcases v2 with _ | v2
      · simp_all [truthy]
      · cases v2 with
        | str t => by_cases h2 : t = "" <;> simp_all [truthy]
        | null => simp_all [truthy]
        | bool c => simp_all [truthy]
        | int m => simp_all [truthy]
        | num r => simp_all [truthy]
        | arr gs => simp_all [truthy]
        | obj gs => simp_all [truthy]

theorem C7_effTs_amended_witness :
    strOrFalsy (getD (mkRecord "e" "2024" []) "serverReceivedAt") = true ∧
    strOrFalsy (getD (mkRecord "e" "2024" []) "timestamp") = true ∧
    effTs (mkRecord "e" "2024" []) = effTsAmended (mkRecord "e" "2024" []) :=
  ⟨by decide, by decide, C7_effTs_amended (mkRecord "e" "2024" []) (by decide) (by decide)⟩

theorem strLt_iff (a b : String) : strLt a b = true ↔ a < b := by
  rw [strLt, decide_eq_true_eq, String.lt_iff_toList_lt]

theorem strLt_asymm {a b : String} (h : strLt a b = true) : strLt b a = false := by
  rw [strLt, decide_eq_false_iff_not, ← String.lt_iff_toList_lt]
  exact lt_asymm ((strLt_iff a b).mp h)

theorem strLt_irrefl (t : String) : strLt t t = false := by
  rw [strLt, decide_eq_false_iff_not]
  exact lt_irrefl _

theorem effTs_lit (e r : Json) (ts : String) :
    effTs [("evaluatorName", e), ("serverReceivedAt", Json.str ts), ("results", r)] = ts := by
  by_cases h : ts = "" <;> simp [effTs, getD, pyOr, truthy, h, List.lookup]

/-- Claim C1: when an evaluator submits two records scoring the same
presenter with effective timestamps `t1 < t2` (lexicographic string
comparison), only the `t2` entry's score, comment and name reach the
presenter's `totalScore`, `voteCount` and `details` — in either processing
order — and the `t1` entry (of arbitrary score shape) contributes
nothing. -/
theorem C1_later_timestamp_wins
    (ev pid t1 t2 now : String) (n1 n2 s1 c1 s2 c2 : Json) (q2 : ℚ)
    (hev : ev ≠ "") (hpid : pid ≠ "")
    (hts : strLt t1 t2 = true) (hs2 : scoreFloat s2 = some q2) :
    ((aggregate_votes [mkRecord ev t1 [mkEntry pid n1 s1 c1],
          mkRecord ev t2 [mkEntry pid n2 s2 c2]] now).all_presenters.map fun s =>
        (s.presenterId, s.presenter, s.totalScore, s.voteCount,
          s.details.map fun d => (d.evaluatorName, d.score, d.comment, d.timestamp)))
      = [(pid, n2, q2, 1, [(ev, q2, pyOr c2 (.str ""), t2)])] ∧
    ((aggregate_votes [mkRecord ev t2 [mkEntry pid n2 s2 c2],
          mkRecord ev t1 [mkEntry pid n1 s1 c1]] now).all_presenters.map fun s =>
        (s.presenterId, s.presenter, s.totalScore, s.voteCount,
          s.details.map fun d => (d.evaluatorName, d.score, d.comment, d.timestamp)))
      = [(pid, n2, q2, 1, [(ev, q2, pyOr c2 (.str ""), t2)])] := by
  have hasym := strLt_asymm hts
  constructor <;>
  · simp only [aggregate_votes, procRecord, procEntry, mkRecord, mkEntry,
      recResults, getD, List.foldl, List.lookup, List.contains, List.elem]
    simp [hev, hpid, List.lookup, effTs_lit, hts, hasym]
    simp [addSurvivor, hs2, dictSet, finalizeSummaries, List.lookup, effTs_lit]

/-- Claim C5 (amended): when two submissions from the same evaluator for the
same presenter carry identical effective timestamp strings, the entry
processed FIRST survives conflict resolution and contributes to the
presenter's totals — the strict `ts > prev[0]` comparison never replaces on
a tie. -/
theorem C5_amended_tie_keeps_first
    (ev pid t now : String) (n1 n2 s1 c1 s2 c2 : Json) (q1 : ℚ)
    (hev : ev ≠ "") (hpid : pid ≠ "")
    (hs1 : scoreFloat s1 = some q1) :
    ((aggregate_votes [mkRecord ev t [mkEntry pid n1 s1 c1],
          mkRecord ev t [mkEntry pid n2 s2 c2]] now).all_presenters.map fun s =>
        (s.presenterId, s.presenter, s.totalScore, s.voteCount,
          s.details.map fun d => (d.evaluatorName, d.score, d.comment, d.timestamp)))
      = [(pid, n1, q1, 1, [(ev, q1, pyOr c1 (.str ""), t)])] := by
  have hirr := strLt_irrefl t
  simp only [aggregate_votes, procRecord, procEntry, mkRecord, mkEntry,
    recResults, getD, List.foldl, List.lookup, List.contains, List.elem]
  simp [hev, hpid, List.lookup, effTs_lit, hirr]
  simp [addSurvivor, hs1, dictSet, finalizeSummaries, List.lookup, effTs_lit]

theorem C1_later_timestamp_wins_witness :
    (("alice" : String) ≠ "" ∧ ("p1" : String) ≠ "" ∧ strLt "2024-01-01" "2024-01-02" = true ∧
      scoreFloat (Json.int 5) = some 5) ∧
    (((aggregate_votes [mkRecord "alice" "2024-01-01" [mkEntry "p1" Json.null (Json.int 3) Json.null],
          mkRecord "alice" "2024-01-02" [mkEntry "p1" Json.null (Json.int 5) Json.null]]
          "now").all_presenters.map fun s =>
        (s.presenterId, s.presenter, s.totalScore, s.voteCount,
          s.details.map fun d => (d.evaluatorName, d.score, d.comment, d.timestamp)))
      = [("p1", Json.null, 5, 1, [("alice", 5, pyOr Json.null (.str ""), "2024-01-02")])] ∧
    ((aggregate_votes [mkRecord "alice" "2024-01-02" [mkEntry "p1" Json.null (Json.int 5) Json.null],
          mkRecord "alice" "2024-01-01" [mkEntry "p1" Json.null (Json.int 3) Json.null]]
          "now").all_presenters.map fun s =>
        (s.presenterId, s.presenter, s.totalScore, s.voteCount,
          s.details.map fun d => (d.evaluatorName, d.score, d.comment, d.timestamp)))
      = [("p1", Json.null, 5, 1, [("alice", 5, pyOr Json.null (.str ""), "2024-01-02")])]) :=
  ⟨⟨by decide, by decide, by decide, by decide⟩,
    C1_later_timestamp_wins "alice" "p1" "2024-01-01" "2024-01-02" "now"
      Json.null Json.null (Json.int 3) Json.null (Json.int 5) Json.null 5
      (by decide) (by decide) (by decide) (by decide)⟩

theorem C5_amended_tie_keeps_first_witness :
    (("alice" : String) ≠ "" ∧ ("p1" : String) ≠ "" ∧ scoreFloat (Json.int 1) = some 1) ∧
    ((aggregate_votes [mkRecord "alice" "T" [mkEntry "p1" Json.null (Json.int 1) Json.null],
          mkRecord "alice" "T" [mkEntry "p1" Json.null (Json.int 2) Json.null]]
          "now").all_presenters.map fun s =>
        (s.presenterId, s.presenter, s.totalScore, s.voteCount,
          s.details.map fun d => (d.evaluatorName, d.score, d.comment, d.timestamp)))
      = [("p1", Json.null, 1, 1, [("alice", 1, pyOr Json.null (.str ""), "T")])] :=
  ⟨⟨by decide, by decide, by decide⟩,
    C5_amended_tie_keeps_first "alice" "p1" "T" "now"
      Json.null Json.null (Json.int 1) Json.null (Json.int 2) Json.null 1
      (by decide) (by decide) (by decide)⟩

theorem foldl_preserves {α β : Type} {P : α → Prop} {f : α → β → α}
    (hstep : ∀ a b, P a → P (f a b)) :
    ∀ (l : List β) (a : α), P a → P (l.foldl f a)
  | [], _, h => h
  | b :: l, a, h => foldl_preserves hstep l (f a b) (hstep a b h)

theorem lookup_dictSet_self {κ α : Type} [DecidableEq κ] [BEq κ] [LawfulBEq κ]
    (d : List (κ × α)) (k : κ) (v : α) :
    List.lookup k (dictSet d k v) = some v := by
  induction d with
  | nil => simp [dictSet]
  | cons kv rest ih =>
    obtain ⟨k0, v0⟩ := kv
    by_cases h : k0 = k
    · subst h
      simp [dictSet]
    · have hb : (k == k0) = false := beq_eq_false_iff_ne.mpr (Ne.symm h)
      simp [dictSet, h, List.lookup_cons, hb, ih]

theorem lookup_dictSet_ne {κ α : Type} [DecidableEq κ] [BEq κ] [LawfulBEq κ]
    (d : List (κ × α)) {k' k : κ} (v : α) (h : k' ≠ k) :
    List.lookup k' (dictSet d k v) = List.lookup k' d := by
  have hb : (k' == k) = false := beq_eq_false_iff_ne.mpr h
  induction d with
  | nil => simp [dictSet, hb, h]
  | cons kv rest ih =>
    obtain ⟨k0, v0⟩ := kv
    by_cases h0 : k0 = k
    · subst h0
      simp [dictSet, List.lookup_cons, hb]
    · simp [dictSet, h0, List.lookup_cons, ih]

theorem mem_keys_dictSet {κ α : Type} [DecidableEq κ]
    (d : List (κ × α)) (k : κ) (v : α) (a : κ) :
    a ∈ (dictSet d k v).map Prod.fst ↔ a = k ∨ a ∈ d.map Prod.fst := by
  induction d with
  | nil => simp [dictSet]
  | cons kv rest ih =>
    obtain ⟨k0, v0⟩ := kv
    by_cases h : k0 = k
    · subst h
      simp [dictSet]
    · simp [dictSet, h, ih]
      tauto

theorem keys_nodup_dictSet {κ α : Type} [DecidableEq κ]
    (d : List (κ × α)) (k : κ) (v : α) (h : (d.map Prod.fst).Nodup) :
    ((dictSet d k v).map Prod.fst).Nodup := by
  induction d with
  | nil => simp [dictSet]
  | cons kv rest ih =>
    obtain ⟨k0, v0⟩ := kv
    rw [List.map_cons, List.nodup_cons] at h
    by_cases h0 : k0 = k
    · subst h0
      rw [dictSet, if_pos rfl, List.map_cons, List.nodup_cons]
      exact h
    · rw [dictSet, if_neg h0, List.map_cons, List.nodup_cons]
      refine ⟨fun hc => ?_, ih h.2⟩
      rw [mem_keys_dictSet] at hc
      rcases hc with hc | hc
      · exact h0 hc
      · exact h.1 hc

theorem mem_dictSet {κ α : Type} [DecidableEq κ]
    {d : List (κ × α)} (hnd : (d.map Prod.fst).Nodup) (k : κ) (v : α) (x : κ × α) :
    x ∈ dictSet d k v ↔ x = (k, v) ∨ (x ∈ d ∧ x.1 ≠ k) := by
  induction d with
  | nil => simp [dictSet]
  | cons kv rest ih =>
    obtain ⟨k0, v0⟩ := kv
    rw [List.map_cons, List.nodup_cons] at hnd
    by_cases h0 : k0 = k
    · subst h0
      rw [dictSet, if_pos rfl]
      simp only [List.mem_cons]
      constructor
      · rintro (rfl | hx)
        · exact Or.inl rfl
        · exact Or.inr ⟨Or.inr hx, fun he => hnd.1 (List.mem_map.mpr ⟨x, hx, he⟩)⟩
      · rintro (rfl | ⟨hx | hx, hne⟩)
        · exact Or.inl rfl
        · exact absurd (congrArg Prod.fst hx) hne
        · exact Or.inr hx
    · rw [dictSet, if_neg h0]
      simp only [List.mem_cons, ih hnd.2]
      constructor
      · rintro (rfl | hx | hx)
        · exact Or.inr ⟨Or.inl rfl, h0⟩
        · exact Or.inl hx
        · exact Or.inr ⟨Or.inr hx.1, hx.2⟩
      · rintro (rfl | ⟨hx | hx, hne⟩)
        · exact Or.inr (Or.inl rfl)
        · exact Or.inl hx
        · exact Or.inr (Or.inr ⟨hx, hne⟩)

theorem lookup_none_of_not_mem_keys {κ α : Type} [BEq κ] [LawfulBEq κ]
    {d : List (κ × α)} {k : κ} (h : k ∉ d.map Prod.fst) :
    List.lookup k d = none := by
  rw [List.lookup_eq_none_iff]
  intro p hp
  simp only [bne_iff_ne, ne_eq]
  intro he
  exact h (he ▸ List.mem_map_of_mem Prod.fst hp)

theorem not_mem_keys_of_lookup_none {κ α : Type} [BEq κ] [LawfulBEq κ]
    {d : List (κ × α)} {k : κ} (h : List.lookup k d = none) :
    k ∉ d.map Prod.fst := by
  rw [List.lookup_eq_none_iff] at h
  intro hc
  rcases List.mem_map.mp hc with ⟨p, hp, he⟩
  have hne := h p hp
  rw [bne_iff_ne] at hne
  exact hne he.symm

theorem mem_of_lookup_eq_some {κ α : Type} [BEq κ] [LawfulBEq κ]
    {d : List (κ × α)} {k : κ} {v : α} (h : List.lookup k d = some v) :
    (k, v) ∈ d := by
  induction d with
  | nil => simp at h
  | cons kv rest ih =>
    obtain ⟨k0, v0⟩ := kv
    by_cases h0 : k = k0
    · subst h0
      rw [List.lookup_cons_self, Option.some.injEq] at h
      subst h
      exact List.mem_cons_self _ _
    · rw [List.lookup_cons] at h
      rw [show (k == k0) = false from beq_eq_false_iff_ne.mpr h0] at h
      exact List.mem_cons_of_mem _ (ih h)

theorem procEntry_keys_nodup (ev ts : String) (latest : Latest) (e : Json)
    (h : (latest.map Prod.fst).Nodup) :
    ((procEntry ev ts latest e).map Prod.fst).Nodup := by
  unfold procEntry
  split
  · split
    · split
      · exact h
      · split
        · exact keys_nodup_dictSet _ _ _ h
        · split
          · exact keys_nodup_dictSet _ _ _ h
          · exact h
    · exact h
  · exact h

theorem procRecord_keys_nodup (st : Latest × List String) (rec : Obj)
    (h : (st.1.map Prod.fst).Nodup) :
    ((procRecord st rec).1.map Prod.fst).Nodup := by
  unfold procRecord
  split
  · split
    · exact h
    · exact foldl_preserves (fun a b hh => procEntry_keys_nodup _ _ a b hh) _ _ h
  · exact h

theorem latestOf_keys_nodup (records : List Obj) :
    ((latestOf records).map Prod.fst).Nodup :=
  foldl_preserves (P := fun st : Latest × List String => (st.1.map Prod.fst).Nodup)
    (fun a b hh => procRecord_keys_nodup a b hh) records ([], []) (by simp)

theorem contribEvs_append (l1 l2 : Latest) (pid : String) :
    contribEvs (l1 ++ l2) pid = contribEvs l1 pid ++ contribEvs l2 pid := by
  simp [contribEvs, List.filter_append]

theorem contribEvs_singleton (kv : VKey × SEntry) (pid : String) :
    contribEvs [kv] pid =
      if kv.1.2 = pid ∧ (scoreFloat kv.2.score).isSome then [kv.1.1] else [] := by
  by_cases h1 : kv.1.2 = pid
  · subst h1
    by_cases h2 : (scoreFloat kv.2.score).isSome <;> simp [contribEvs, List.filter, h2]
  · have hb : (kv.1.2 == pid) = false := beq_eq_false_iff_ne.mpr h1
    simp [contribEvs, List.filter, hb, h1]

theorem accInv_step (done : Latest) (acc : List (String × Summary)) (kv : VKey × SEntry)
    (h : accInv done acc) : accInv (done ++ [kv]) (addSurvivor acc kv) := by
  obtain ⟨hnd, hmem, hout⟩ := h
  rcases hsf : scoreFloat kv.2.score with _ | s
  · have hskip : addSurvivor acc kv = acc := by simp [addSurvivor, hsf]
    rw [hskip]
    have hdelta : ∀ pid, contribEvs (done ++ [kv]) pid = contribEvs done pid := by
      intro pid
      rw [contribEvs_append, contribEvs_singleton, if_neg, List.append_nil]
      rintro ⟨-, hcon⟩
      rw [hsf] at hcon
      simp at hcon
    refine ⟨hnd, fun p hp => ?_, fun pid hpid => ?_⟩
    · obtain ⟨h1, h2, h3, h4, h5⟩ := hmem p hp
      exact ⟨h1, h2, h3, h4, by rw [hdelta]; exact h5⟩
    · rw [hdelta]
      exact hout pid hpid
  · have hdelta_eq : contribEvs (done ++ [kv]) kv.1.2 = contribEvs done kv.1.2 ++ [kv.1.1] := by
      rw [contribEvs_append, contribEvs_singleton, if_pos]
      exact ⟨rfl, by rw [hsf]; rfl⟩
    have hdelta_ne : ∀ pid, pid ≠ kv.1.2 →
        contribEvs (done ++ [kv]) pid = contribEvs done pid := by
      intro pid hne
      rw [contribEvs_append, contribEvs_singleton, if_neg, List.append_nil]
      rintro ⟨he, -⟩
      exact hne he.symm
    rcases hlk : List.lookup kv.1.2 acc with _ | p
    · have hnotin : kv.1.2 ∉ acc.map Prod.fst := not_mem_keys_of_lookup_none hlk
      have hc0 : contribEvs done kv.1.2 = [] := hout _ hnotin
      cases htb : truthy kv.2.pname <;>
      · simp only [addSurvivor, hsf, hlk, htb, Bool.false_eq_true, if_true, if_false,
          ite_true, ite_false]
        refine ⟨keys_nodup_dictSet _ _ _ hnd, fun x hx => ?_, fun pid hpid => ?_⟩
        · rw [mem_dictSet hnd] at hx
          rcases hx with rfl | ⟨hxa, hxne⟩
          · refine ⟨rfl, by simp, by simp, by simp, ?_⟩
            rw [hdelta_eq, hc0]
            simp
          · obtain ⟨h1, h2, h3, h4, h5⟩ := hmem x hxa
            exact ⟨h1, h2, h3, h4, by rw [hdelta_ne x.1 hxne]; exact h5⟩
        · rw [mem_keys_dictSet, not_or] at hpid
          rw [hdelta_ne pid hpid.1]
          exact hout pid hpid.2
    · have hpmem : (kv.1.2, p) ∈ acc := mem_of_lookup_eq_some hlk
      obtain ⟨hp1, hp2, hp3, hp4, hp5⟩ := hmem _ hpmem
      dsimp only at hp1 hp2 hp3 hp4 hp5
      cases htb : truthy kv.2.pname <;>
      · simp only [addSurvivor, hsf, hlk, htb, Bool.false_eq_true, if_true, if_false,
          ite_true, ite_false]
        refine ⟨keys_nodup_dictSet _ _ _ hnd, fun x hx => ?_, fun pid hpid => ?_⟩
        · rw [mem_dictSet hnd] at hx
          rcases hx with rfl | ⟨hxa, hxne⟩
          · refine ⟨hp1, ?_, ?_, ?_, ?_⟩
            · simp [hp2]
            · simp [hp3]
            · simp
            · dsimp only
              rw [List.map_append, hp5, hdelta_eq]
              rfl
          · obtain ⟨h1, h2, h3, h4, h5⟩ := hmem x hxa
            exact ⟨h1, h2, h3, h4, by rw [hdelta_ne x.1 hxne]; exact h5⟩
        · rw [mem_keys_dictSet, not_or] at hpid
          rw [hdelta_ne pid hpid.1]
          exact hout pid hpid.2

theorem accInv_foldl : ∀ (l done : Latest) (acc : List (String × Summary)),
    accInv done acc → accInv (done ++ l) (l.foldl addSurvivor acc)
  | [], done, acc, h => by simpa using h
  | kv :: l, done, acc, h => by
    have h2 := accInv_foldl l (done ++ [kv]) (addSurvivor acc kv) (accInv_step done acc kv h)
    simpa [List.append_assoc] using h2

theorem accInv_latest (records : List Obj) :
    accInv (latestOf records) ((latestOf records).foldl addSurvivor []) := by
  have h0 : accInv [] [] := ⟨List.nodup_nil, by simp, fun pid _ => rfl⟩
  simpa using accInv_foldl (latestOf records) [] [] h0

theorem mem_all_presenters (records : List Obj) (now : String) (s : Summary) :
    s ∈ (aggregate_votes records now).all_presenters ↔
      ∃ kv ∈ (latestOf records).foldl addSurvivor [],
        { kv.2 with avgScore := round3 (if kv.2.voteCount > 0
            then kv.2.totalScore / (kv.2.voteCount : ℚ) else 0) } = s := by
  have he : (aggregate_votes records now).all_presenters =
      (finalizeSummaries ((latestOf records).foldl addSurvivor [])).mergeSort sortKeyLe := rfl
  rw [he, List.mem_mergeSort, finalizeSummaries, List.mem_map]

theorem contribEvs_nodup (l : Latest) (h : (l.map Prod.fst).Nodup) (pid : String) :
    (contribEvs l pid).Nodup := by
  unfold contribEvs
  have hsub : ((l.filter fun kv => kv.1.2 == pid && (scoreFloat kv.2.score).isSome).map
      Prod.fst).Sublist (l.map Prod.fst) :=
    (List.filter_sublist l).map Prod.fst
  have hknd := hsub.nodup h
  have hall : ∀ k ∈ (l.filter fun kv =>
      kv.1.2 == pid && (scoreFloat kv.2.score).isSome).map Prod.fst, k.2 = pid := by
    intro k hk
    rcases List.mem_map.mp hk with ⟨kv, hkv, rfl⟩
    have hf := (List.mem_filter.mp hkv).2
    rw [Bool.and_eq_true, beq_iff_eq] at hf
    exact hf.1
  have hrw : (l.filter fun kv => kv.1.2 == pid && (scoreFloat kv.2.score).isSome).map
        (fun kv => kv.1.1)
      = ((l.filter fun kv => kv.1.2 == pid && (scoreFloat kv.2.score).isSome).map
        Prod.fst).map (fun k => k.1) := by
    rw [List.map_map]
    rfl
  rw [hrw]
  exact hknd.map_on fun x hx y hy hxy =>
    Prod.ext_iff.mpr ⟨hxy, by rw [hall x hx, hall y hy]⟩

theorem pid_absent_of_unparsable (records : List Obj) (now : String) (pid : String)
    (hnone : ∀ kv ∈ latestOf records, kv.1.2 = pid → scoreFloat kv.2.score = none) :
    pid ∉ (aggregate_votes records now).all_presenters.map (fun s => s.presenterId) := by
  obtain ⟨hnd, hmem, hout⟩ := accInv_latest records
  have hc : contribEvs (latestOf records) pid = [] := by
    unfold contribEvs
    rw [List.map_eq_nil_iff, List.filter_eq_nil_iff]
    intro kv hkv
    rw [Bool.and_eq_true, beq_iff_eq, not_and]
    intro he
    rw [hnone kv hkv he]
    simp
  have hkeys : pid ∉ ((latestOf records).foldl addSurvivor []).map Prod.fst := by
    intro hc2
    rcases List.mem_map.mp hc2 with ⟨x, hx, hxe⟩
    obtain ⟨f1, f2, f3, f4, f5⟩ := hmem x hx
    rw [hxe, hc] at f5
    rw [List.map_eq_nil_iff] at f5
    rw [f5] at f2
    rw [f2] at f4
    exact absurd f4 (by simp)
  intro hout2
  rcases List.mem_map.mp hout2 with ⟨s, hs, hse⟩
  rw [mem_all_presenters] at hs
  obtain ⟨kv, hkv, hfe⟩ := hs
  obtain ⟨f1, f2, f3, f4, f5⟩ := hmem kv hkv
  apply hkeys
  rw [List.mem_map]
  refine ⟨kv, hkv, ?_⟩
  rw [← f1, ← hse, ← hfe]

/-- Claim C4: every presenter summary in the output has `voteCount > 0` and
`avgScore = round3 (totalScore / voteCount)`, and a presenter all of whose
surviving entries carry a `None` or float-unparsable score is absent from
`all_presenters` entirely. -/
theorem C4_avg_and_absence (records : List Obj) (now : String) :
    (∀ s ∈ (aggregate_votes records now).all_presenters,
        0 < s.voteCount ∧ s.avgScore = round3 (s.totalScore / (s.voteCount : ℚ))) ∧
    ∀ pid : String,
      (∀ kv ∈ latestOf records, kv.1.2 = pid → scoreFloat kv.2.score = none) →
      pid ∉ (aggregate_votes records now).all_presenters.map (fun s => s.presenterId) := by
  obtain ⟨hnd, hmem, hout⟩ := accInv_latest records
  refine ⟨fun s hs => ?_, fun pid hnone => pid_absent_of_unparsable records now pid hnone⟩
  rw [mem_all_presenters] at hs
  obtain ⟨kv, hkv, rfl⟩ := hs
  obtain ⟨f1, f2, f3, f4, f5⟩ := hmem kv hkv
  dsimp only at f2 f3 f4 ⊢
  have hpos : 0 < kv.2.voteCount := lt_of_lt_of_le Nat.zero_lt_one f4
  exact ⟨hpos, by rw [if_pos hpos]⟩

/-- Claim C10: in every aggregation result, each presenter summary has
`voteCount` equal to the length of its `details`, `totalScore` equal to the
sum of the detail scores, and no evaluator name occurring twice among the
details. -/
theorem C10_summary_invariants (records : List Obj) (now : String) :
    ∀ s ∈ (aggregate_votes records now).all_presenters,
      s.voteCount = s.details.length ∧
      s.totalScore = (s.details.map (fun d => d.score)).sum ∧
      (s.details.map (fun d => d.evaluatorName)).Nodup := by
  obtain ⟨hnd, hmem, hout⟩ := accInv_latest records
  intro s hs
  rw [mem_all_presenters] at hs
  obtain ⟨kv, hkv, rfl⟩ := hs
  obtain ⟨f1, f2, f3, f4, f5⟩ := hmem kv hkv
  dsimp only at f2 f3 f5 ⊢
  refine ⟨f2, f3, ?_⟩
  rw [f5]
  exact contribEvs_nodup (latestOf records) (latestOf_keys_nodup records) kv.1

/-- Claim C6 (amended): a presenter that appears in the survivor map only
through entries with unparsable or absent scores is omitted from
`all_presenters` entirely, rather than retained with `voteCount` 0 and
`avgScore` 0.0. -/
theorem C6_amended_unparsable_omitted (records : List Obj) (now : String) (pid : String)
    (_happ : pid ∈ (latestOf records).map (fun kv => kv.1.2))
    (hnone : ∀ kv ∈ latestOf records, kv.1.2 = pid → scoreFloat kv.2.score = none) :
    pid ∉ (aggregate_votes records now).all_presenters.map (fun s => s.presenterId) :=
  pid_absent_of_unparsable records now pid hnone

theorem C4_avg_and_absence_witness :
    (∀ s ∈ (aggregate_votes [mkRecord "e" "t" [mkEntry "p" Json.null (Json.str "abc") Json.null]]
        "now").all_presenters,
      0 < s.voteCount ∧ s.avgScore = round3 (s.totalScore / (s.voteCount : ℚ))) ∧
    (∀ kv ∈ latestOf [mkRecord "e" "t" [mkEntry "p" Json.null (Json.str "abc") Json.null]],
      kv.1.2 = "p" → scoreFloat kv.2.score = none) ∧
    "p" ∉ (aggregate_votes [mkRecord "e" "t" [mkEntry "p" Json.null (Json.str "abc") Json.null]]
        "now").all_presenters.map (fun s => s.presenterId) :=
  ⟨(C4_avg_and_absence [mkRecord "e" "t" [mkEntry "p" Json.null (Json.str "abc") Json.null]]
      "now").1,
   by decide,
   (C4_avg_and_absence [mkRecord "e" "t" [mkEntry "p" Json.null (Json.str "abc") Json.null]]
      "now").2 "p" (by decide)⟩

theorem C10_summary_invariants_witness :
    (⟨"p", Json.null, 4, 1, [⟨"a", 4, Json.str "", "t"⟩], 4⟩ : Summary) ∈
      (aggregate_votes [mkRecord "a" "t" [mkEntry "p" Json.null (Json.int 4) Json.null]]
        "now").all_presenters ∧
    ((⟨"p", Json.null, 4, 1, [⟨"a", 4, Json.str "", "t"⟩], 4⟩ : Summary).voteCount
        = (⟨"p", Json.null, 4, 1, [⟨"a", 4, Json.str "", "t"⟩], 4⟩ : Summary).details.length ∧
      (⟨"p", Json.null, 4, 1, [⟨"a", 4, Json.str "", "t"⟩], 4⟩ : Summary).totalScore
        = ((⟨"p", Json.null, 4, 1, [⟨"a", 4, Json.str "", "t"⟩], 4⟩ : Summary).details.map
            (fun d => d.score)).sum ∧
      ((⟨"p", Json.null, 4, 1, [⟨"a", 4, Json.str "", "t"⟩], 4⟩ : Summary).details.map
          (fun d => d.evaluatorName)).Nodup) :=
  ⟨List.mem_singleton_self _,
   C10_summary_invariants [mkRecord "a" "t" [mkEntry "p" Json.null (Json.int 4) Json.null]]
     "now" _ (List.mem_singleton_self _)⟩

theorem C6_amended_unparsable_omitted_witness :
    "p" ∈ (latestOf [mkRecord "e" "t" [mkEntry "p" Json.null (Json.str "abc") Json.null]]).map
        (fun kv => kv.1.2) ∧
    (∀ kv ∈ latestOf [mkRecord "e" "t" [mkEntry "p" Json.null (Json.str "abc") Json.null]],
      kv.1.2 = "p" → scoreFloat kv.2.score = none) ∧
    "p" ∉ (aggregate_votes [mkRecord "e" "t" [mkEntry "p" Json.null (Json.str "abc") Json.null]]
        "now").all_presenters.map (fun s => s.presenterId) :=
  ⟨by decide, by decide,
   C6_amended_unparsable_omitted
     [mkRecord "e" "t" [mkEntry "p" Json.null (Json.str "abc") Json.null]] "now" "p"
     (by decide) (by decide)⟩

theorem rankedBefore_irrefl (a : Summary) : ¬ rankedBefore a a := by
  unfold rankedBefore
  simp

theorem rankedBefore_subst_left {a b c : Summary}
    (h : rankedBefore a c) (e1 : a.avgScore = b.avgScore)
    (e2 : a.voteCount = b.voteCount) (e3 : a.presenterId = b.presenterId) :
    rankedBefore b c := by
  unfold rankedBefore at h ⊢
  rw [← e1, ← e2, ← e3]
  exact h

theorem rankedBefore_trans {a b c : Summary}
    (h1 : rankedBefore a b) (h2 : rankedBefore b c) : rankedBefore a c := by
  unfold rankedBefore at h1 h2 ⊢
  rcases h1 with h1 | ⟨e1, h1⟩
  · rcases h2 with h2 | ⟨e2, h2⟩
    · exact Or.inl (lt_trans h2 h1)
    · exact Or.inl (by rw [← e2]; exact h1)
  · rcases h2 with h2 | ⟨e2, h2⟩
    · exact Or.inl (by rw [e1]; exact h2)
    · refine Or.inr ⟨e1.trans e2, ?_⟩
      rcases h1 with h1 | ⟨f1, h1⟩
      · rcases h2 with h2 | ⟨f2, h2⟩
        · exact Or.inl (lt_trans h2 h1)
        · exact Or.inl (by rw [← f2]; exact h1)
      · rcases h2 with h2 | ⟨f2, h2⟩
        · exact Or.inl (by rw [f1]; exact h2)
        · exact Or.inr ⟨f1.trans f2, lt_trans h1 h2⟩

theorem rankedBefore_trichotomy (a b : Summary) :
    rankedBefore a b ∨ rankedBefore b a ∨
      (a.avgScore = b.avgScore ∧ a.voteCount = b.voteCount ∧
        a.presenterId = b.presenterId) := by
  unfold rankedBefore
  rcases lt_trichotomy a.avgScore b.avgScore with h | h | h
  · exact Or.inr (Or.inl (Or.inl h))
  · rcases lt_trichotomy a.voteCount b.voteCount with h2 | h2 | h2
    · exact Or.inr (Or.inl (Or.inr ⟨h.symm, Or.inl h2⟩))
    · rcases lt_trichotomy a.presenterId b.presenterId with h3 | h3 | h3
      · exact Or.inl (Or.inr ⟨h, Or.inr ⟨h2, h3⟩⟩)
      · exact Or.inr (Or.inr ⟨h, h2, h3⟩)
      · exact Or.inr (Or.inl (Or.inr ⟨h.symm, Or.inr ⟨h2.symm, h3⟩⟩))
    · exact Or.inl (Or.inr ⟨h, Or.inl h2⟩)
  · exact Or.inl (Or.inl h)

theorem sortKeyLt_iff (a b : Summary) : sortKeyLt a b = true ↔ rankedBefore a b := by
  unfold sortKeyLt rankedBefore
  by_cases h1 : a.avgScore = b.avgScore
  · by_cases h2 : a.voteCount = b.voteCount
    · simp [h1, h2, strLt_iff, lt_irrefl]
    · simp [h1, h2, decide_eq_true_eq, lt_irrefl]
  · simp [h1, decide_eq_true_eq]

theorem sortKeyLe_iff (a b : Summary) : sortKeyLe a b = true ↔ ¬ rankedBefore b a := by
  unfold sortKeyLe
  rw [Bool.not_eq_true']
  rw [← Bool.not_eq_true (sortKeyLt b a)]
  exact not_congr (sortKeyLt_iff b a)

theorem sortKeyLe_trans (a b c : Summary)
    (h1 : sortKeyLe a b) (h2 : sortKeyLe b c) : sortKeyLe a c := by
  rw [sortKeyLe_iff] at h1 h2 ⊢
  intro hca
  rcases rankedBefore_trichotomy c b with h | h | h
  · exact h2 h
  · exact h1 (rankedBefore_trans h hca)
  · exact h1 (rankedBefore_subst_left hca h.1 h.2.1 h.2.2)

theorem sortKeyLe_total (a b : Summary) : sortKeyLe a b || sortKeyLe b a := by
  rw [Bool.or_eq_true, sortKeyLe_iff, sortKeyLe_iff]
  by_contra hc
  rw [not_or, not_not, not_not] at hc
  exact rankedBefore_irrefl a (rankedBefore_trans hc.2 hc.1)

theorem output_pids_nodup (records : List Obj) (now : String) :
    ((aggregate_votes records now).all_presenters.map (fun s => s.presenterId)).Nodup := by
  obtain ⟨hnd, hmem, -⟩ := accInv_latest records
  have h1 : (finalizeSummaries ((latestOf records).foldl addSurvivor [])).map
      (fun s => s.presenterId) = ((latestOf records).foldl addSurvivor []).map Prod.fst := by
    rw [finalizeSummaries, List.map_map]
    exact List.map_congr_left fun kv hkv => (hmem kv hkv).1
  have hperm : List.Perm
      ((aggregate_votes records now).all_presenters.map (fun s => s.presenterId))
      ((finalizeSummaries ((latestOf records).foldl addSurvivor [])).map
        (fun s => s.presenterId)) :=
    (List.mergeSort_perm (finalizeSummaries ((latestOf records).foldl addSurvivor []))
      sortKeyLe).map _
  rw [hperm.nodup_iff, h1]
  exact hnd

/-- Claim C2: the `all_presenters` list returned by `aggregate_votes` is
strictly sorted by `avgScore` descending, then `voteCount` descending, then
`presenterId` ascending (lexicographic): every earlier entry is ranked
strictly before every later one, a fully deterministic total order. -/
theorem C2_output_strictly_sorted (records : List Obj) (now : String) :
    ((aggregate_votes records now).all_presenters).Pairwise rankedBefore := by
  have hsorted : ((aggregate_votes records now).all_presenters).Pairwise
      (fun a b => sortKeyLe a b = true) :=
    List.sorted_mergeSort sortKeyLe_trans sortKeyLe_total
      (finalizeSummaries ((latestOf records).foldl addSurvivor []))
  have hne : ((aggregate_votes records now).all_presenters).Pairwise
      (fun a b => a.presenterId ≠ b.presenterId) :=
    List.pairwise_map.mp (output_pids_nodup records now)
  refine (hsorted.and hne).imp ?_
  rintro a b ⟨hle, hne2⟩
  rcases rankedBefore_trichotomy a b with h | h | h
  · exact h
  · exact absurd h ((sortKeyLe_iff a b).mp hle)
  · exact absurd h.2.2 hne2
